import Mathlib

/-!
Shallow embedding of `src/deep_pointer.rs` from the `asr` repository:
the `DeepPointer` pointer-path type and its traversal algorithms.

Addresses are modelled as natural numbers below `2 ^ 64` (the Rust `Address`
wraps a `u64`); the null address is `0`.  Memory reads go through an explicit
`Process` collaborator and every traversal returns, next to its result, the
trace of reads it issued (address and byte count of each read), so that
claims about the number and order of reads are statable.
-/

namespace Asr

abbrev U32 : Nat := 2 ^ 32

abbrev U64 : Nat := 2 ^ 64

/-- Modelled from the spec: the `Address` collaborator is an add-capable
64-bit numeric handle with a distinguished null value.  Addition with a
`u64` offset wraps modulo `2 ^ 64`; null is `0`. -/
def addrAdd (a off : Nat) : Nat := (a + off) % U64

/-- Modelled from the spec: the opaque underlying cause of a failed memory
read (unmapped page, permission denied, process exited, ...), carried as a
numeric code. -/
structure ReadError where
  code : Nat
deriving DecidableEq

/-- Modelled from the spec: the error kinds surfaced by the core (the
crate-level `Error` type lives outside `src/`): `NullBase`, `EmptyPath`,
`ReadFailed` wrapping the collaborator's underlying cause, and
`InvalidBitPattern`. -/
inductive Error where
  | nullBase : Error
  | emptyPath : Error
  | readFailed (cause : ReadError) : Error
  | invalidBitPattern : Error
deriving DecidableEq

/-- `DerefType` from `src/deep_pointer.rs`: the pointer size used while
dereferencing a pointer path. -/
inductive DerefType where
  | Bit32 : DerefType
  | Bit64 : DerefType
deriving DecidableEq

/-- The Rust `#[default]` attribute sits on `Bit64`. -/
instance : Inhabited DerefType := ⟨DerefType.Bit64⟩

/-- Byte count of one intermediate pointer read: 4 for `Bit32`
(`Address32`), 8 for `Bit64` (`Address64`). -/
def ptrBytes : DerefType → Nat
  | .Bit32 => 4
  | .Bit64 => 8

/-- Modelled from the spec: the `MemoryReader` collaborator (`Process` in the
source, defined outside `src/`), exposing the target process's memory one
byte at a time; each byte read either yields the byte or fails with an
underlying cause. -/
structure Process where
  readByte : Nat → Except ReadError (Fin 256)

/-- Modelled from the spec: reading `n` consecutive bytes starting at
`addr`; any failing byte fails the whole read with its cause. -/
def Process.readBytes (p : Process) (addr : Nat) : Nat → Except ReadError (List (Fin 256))
  | 0 => .ok []
  | n + 1 =>
    match p.readByte addr with
    | .error e => .error e
    | .ok b => (p.readBytes (addr + 1) n).map (b :: ·)

/-- Little-endian decoding of a byte sequence into a natural number. -/
def leDecode (bs : List (Fin 256)) : Nat :=
  bs.foldr (fun b acc => b.val + 256 * acc) 0

/-- One intermediate pointer read: `process.read::<Address32>` /
`process.read::<Address64>` followed by `.into()`, i.e. read
`ptrBytes dt` bytes and widen the raw value into an `Address`. -/
def Process.readPtr (p : Process) (dt : DerefType) (addr : Nat) : Except ReadError Nat :=
  (p.readBytes addr (ptrBytes dt)).map leDecode

/-- `DeepPointer<CAP>` from `src/deep_pointer.rs`: base address, offset
path (the `ArrayVec<u64, CAP>`), and pointer width. -/
structure DeepPointer (CAP : Nat) where
  base_address : Nat
  path : List Nat
  deref_type : DerefType
deriving DecidableEq

/-- `impl Default for DeepPointer`: null base, empty path, default width. -/
def DeepPointer.defaultPtr (CAP : Nat) : DeepPointer CAP :=
  ⟨0, [], DerefType.Bit64⟩

/-- `DeepPointer::new`: `assert!(CAP != 0 && CAP >= path.len())`, then
collect the offsets.  The panic of a failed assertion is modelled as
`none`. -/
def DeepPointer.new (CAP : Nat) (base_address : Nat) (deref_type : DerefType)
    (path : List Nat) : Option (DeepPointer CAP) :=
  if CAP ≠ 0 ∧ CAP ≥ path.length then
    some ⟨base_address, path, deref_type⟩
  else
    none

/-- `DeepPointer::with_base_address`: a new path with a changed base
address but otherwise the same path. -/
def DeepPointer.with_base_address (ptr : DeepPointer CAP) (base_address : Nat) :
    DeepPointer CAP :=
  ⟨base_address, ptr.path, ptr.deref_type⟩

/-- `split_last` on the offset sequence: `some (last, init)` unless the
sequence is empty. -/
def splitLast : List Nat → Option (Nat × List Nat)
  | [] => none
  | [x] => some (x, [])
  | x :: y :: xs =>
    match splitLast (y :: xs) with
    | some (l, init) => some (l, x :: init)
    | none => none

/-- The `for &offset in path` loop of `deref_offsets_from`: follow each
intermediate offset with one pointer-sized read, recording each issued
read as an `(address, byte count)` trace entry; a failed read aborts with
its cause (the failing read itself is recorded, nothing after it). -/
def derefLoop (p : Process) (dt : DerefType) :
    Nat → List Nat → Except ReadError Nat × List (Nat × Nat)
  | address, [] => (.ok address, [])
  | address, offset :: rest =>
    let a := addrAdd address offset
    match p.readPtr dt a with
    | .error e => (.error e, [(a, ptrBytes dt)])
    | .ok v =>
      let r := derefLoop p dt v rest
      (r.1, (a, ptrBytes dt) :: r.2)

/-- `DeepPointer::deref_offsets_from`: null-base guard, `split_last`
guard, the dereference loop over the intermediate offsets, and finally
`address + last`.  Returns the result together with the trace of issued
reads. -/
def DeepPointer.deref_offsets_from (ptr : DeepPointer CAP) (p : Process)
    (base_address : Nat) : Except Error Nat × List (Nat × Nat) :=
  let address := base_address
  if address = 0 then (.error .nullBase, [])
  else
    match splitLast ptr.path with
    | none => (.error .emptyPath, [])
    | some (last, inter) =>
      match derefLoop p ptr.deref_type address inter with
      | (.ok address, tr) => (.ok (addrAdd address last), tr)
      | (.error e, tr) => (.error (.readFailed e), tr)

/-- `DeepPointer::deref_offsets`: resolve from the path's own base. -/
def DeepPointer.deref_offsets (ptr : DeepPointer CAP) (p : Process) :
    Except Error Nat × List (Nat × Nat) :=
  ptr.deref_offsets_from p ptr.base_address

/-- Modelled from the spec: a POD type `T` (Rust `T: CheckedBitPattern`,
defined outside `src/`) as a byte size together with a checked decoder
that yields a value only for legal bit patterns. -/
structure PodType (T : Type) where
  size : Nat
  decode : List (Fin 256) → Option T

/-- Modelled from the spec: `Process::read::<T>` for a POD type — one read
of `size` bytes, then checked decoding; an illegal bit pattern fails with
`InvalidBitPattern` rather than producing a value. -/
def Process.readValue {T : Type} (p : Process) (pod : PodType T) (addr : Nat) :
    Except Error T :=
  match p.readBytes addr pod.size with
  | .error e => .error (.readFailed e)
  | .ok bs =>
    match pod.decode bs with
    | none => .error .invalidBitPattern
    | some v => .ok v

/-- `DeepPointer::deref_from`: resolve the address from the given base,
then one more read at that address decoded as `T`.  The final read is
recorded in the trace as a read of `pod.size` bytes. -/
def DeepPointer.deref_from {T : Type} (pod : PodType T) (ptr : DeepPointer CAP)
    (p : Process) (base_address : Nat) : Except Error T × List (Nat × Nat) :=
  match ptr.deref_offsets_from p base_address with
  | (.ok a, tr) => (p.readValue pod a, tr ++ [(a, pod.size)])
  | (.error e, tr) => (.error e, tr)

/-- `DeepPointer::deref`: resolve from the path's own base, then read the
value. -/
def DeepPointer.deref {T : Type} (pod : PodType T) (ptr : DeepPointer CAP)
    (p : Process) : Except Error T × List (Nat × Nat) :=
  DeepPointer.deref_from pod ptr p ptr.base_address

/-- A successful chain of intermediate reads: starting at `a`, the read at
`a + offs[0]` yields `vs[0]`, the read at `vs[0] + offs[1]` yields
`vs[1]`, and so on. -/
def chainOk (p : Process) (dt : DerefType) : Nat → List Nat → List Nat → Prop
  | _, [], [] => True
  | a, off :: offs, v :: vs =>
    p.readPtr dt (addrAdd a off) = .ok v ∧ chainOk p dt v offs vs
  | _, _, _ => False

/-- The read trace expected of a successful chain. -/
def chainTrace (dt : DerefType) : Nat → List Nat → List Nat → List (Nat × Nat)
  | a, off :: offs, v :: vs => (addrAdd a off, ptrBytes dt) :: chainTrace dt v offs vs
  | _, _, _ => []

/-- A concrete process backed by an association list from byte addresses
to byte values; absent addresses fail with their own address as cause. -/
def memProc (l : List (Nat × Nat)) : Process :=
  ⟨fun a =>
    match l.lookup a with
    | some b => .ok ⟨b % 256, by omega⟩
    | none => .error ⟨a⟩⟩

/-- A process with no readable memory at all. -/
def procEmpty : Process := memProc []

/-- The spec's scenario memory: the 8 bytes at `0x1010` hold the 64-bit
little-endian value `0x2000`. -/
def proc1 : Process :=
  memProc [(0x1010, 0x00), (0x1011, 0x20), (0x1012, 0), (0x1013, 0),
           (0x1014, 0), (0x1015, 0), (0x1016, 0), (0x1017, 0)]

/-- The spec's scenario memory extended with a single byte `2` at the
resolved target address `0x2020`. -/
def proc6 : Process :=
  memProc [(0x1010, 0x00), (0x1011, 0x20), (0x1012, 0), (0x1013, 0),
           (0x1014, 0), (0x1015, 0), (0x1016, 0), (0x1017, 0), (0x2020, 2)]

/-- The spec's scenario path: base `0x1000`, width `Wide`, offsets
`[0x10, 0x20]`. -/
def ptr1 : DeepPointer 2 := ⟨0x1000, [0x10, 0x20], DerefType.Bit64⟩

/-- A POD `Bool`: one byte, whose only legal bit patterns are `0` and
`1`. -/
def podBool : PodType Bool :=
  ⟨1, fun bs =>
    match bs with
    | [b] => if b.val ≤ 1 then some (b.val == 1) else none
    | _ => none⟩

/-! ### Helper lemmas -/

theorem splitLast_append_last (xs : List Nat) (l : Nat) :
    splitLast (xs ++ [l]) = some (l, xs) := by
  induction xs with
  | nil => rfl
  | cons x xs ih =>
    cases xs with
    | nil => rfl
    | cons y ys =>
      have hstep : splitLast (x :: y :: (ys ++ [l])) =
          match splitLast (y :: (ys ++ [l])) with
          | some (last, init) => some (last, x :: init)
          | none => none := rfl
      rw [List.cons_append] at ih
      rw [List.cons_append, List.cons_append, hstep, ih]

theorem chainOk_length (p : Process) (dt : DerefType) :
    ∀ (offs vs : List Nat) (a : Nat), chainOk p dt a offs vs → vs.length = offs.length := by
  intro offs
  induction offs with
  | nil => intro vs a h; cases vs with
    | nil => rfl
    | cons v vs => exact absurd h (by simp [chainOk])
  | cons off offs ih =>
    intro vs a h
    cases vs with
    | nil => exact absurd h (by simp [chainOk])
    | cons v vs => simpa using ih vs v h.2

theorem chainTrace_length (p : Process) (dt : DerefType) :
    ∀ (offs vs : List Nat) (a : Nat), chainOk p dt a offs vs →
      (chainTrace dt a offs vs).length = offs.length := by
  intro offs
  induction offs with
  | nil => intro vs a h; cases vs with
    | nil => rfl
    | cons v vs => exact absurd h (by simp [chainOk])
  | cons off offs ih =>
    intro vs a h
    cases vs with
    | nil => exact absurd h (by simp [chainOk])
    | cons v vs => simpa [chainTrace] using ih vs v h.2

theorem derefLoop_chain (p : Process) (dt : DerefType) :
    ∀ (offs vs : List Nat) (a : Nat), chainOk p dt a offs vs →
      derefLoop p dt a offs = (.ok (vs.getLastD a), chainTrace dt a offs vs) := by
  intro offs
  induction offs with
  | nil =>
    intro vs a h
    cases vs with
    | nil => rfl
    | cons v vs => exact absurd h (by simp [chainOk])
  | cons off offs ih =>
    intro vs a h
    cases vs with
    | nil => exact absurd h (by simp [chainOk])
    | cons v vs =>
      obtain ⟨hread, hrest⟩ := h
      simp only [derefLoop, hread, ih vs v hrest, chainTrace, List.getLastD_cons]

theorem derefLoop_fail (p : Process) (dt : DerefType) :
    ∀ (pre vs : List Nat) (a offf : Nat) (rest : List Nat) (cause : ReadError),
      chainOk p dt a pre vs →
      p.readPtr dt (addrAdd (vs.getLastD a) offf) = .error cause →
      derefLoop p dt a (pre ++ offf :: rest) =
        (.error cause,
          chainTrace dt a pre vs ++ [(addrAdd (vs.getLastD a) offf, ptrBytes dt)]) := by
  intro pre
  induction pre with
  | nil =>
    intro vs a offf rest cause h hfail
    cases vs with
    | nil => simp only [List.nil_append, derefLoop, List.getLastD_nil] at hfail ⊢
             rw [hfail]; rfl
    | cons v vs => exact absurd h (by simp [chainOk])
  | cons off offs ih =>
    intro vs a offf rest cause h hfail
    cases vs with
    | nil => exact absurd h (by simp [chainOk])
    | cons v vs =>
      obtain ⟨hread, hrest⟩ := h
      rw [List.getLastD_cons] at hfail
      simp only [List.cons_append, derefLoop, hread, List.append_eq,
        ih vs v offf rest cause hrest hfail, chainTrace, List.getLastD_cons,
        List.cons_append]

theorem readBytes_length (p : Process) :
    ∀ (n addr : Nat) (bs : List (Fin 256)), p.readBytes addr n = .ok bs → bs.length = n := by
  intro n
  induction n with
  | zero =>
    intro addr bs h
    simp only [Process.readBytes] at h
    cases h
    rfl
  | succ n ih =>
    intro addr bs h
    simp only [Process.readBytes] at h
    cases hb : p.readByte addr with
    | error e => rw [hb] at h; cases h
    | ok b =>
      rw [hb] at h
      cases hr : p.readBytes (addr + 1) n with
      | error e => rw [hr] at h; cases h
      | ok cs =>
        rw [hr] at h
        cases h
        simpa using ih (addr + 1) cs hr

theorem leDecode_lt : ∀ bs : List (Fin 256), leDecode bs < 256 ^ bs.length := by
  intro bs
  induction bs with
  | nil => simp [leDecode]
  | cons b bs ih =>
    have hb := b.isLt
    simp only [leDecode, List.foldr_cons, List.length_cons] at ih ⊢
    calc b.val + 256 * List.foldr (fun b acc => b.val + 256 * acc) 0 bs
        < 256 * (List.foldr (fun b acc => b.val + 256 * acc) 0 bs + 1) := by omega
      _ ≤ 256 * 256 ^ bs.length := Nat.mul_le_mul_left 256 ih
      _ = 256 ^ (bs.length + 1) := by ring

theorem readPtr_lt (p : Process) (dt : DerefType) (a v : Nat)
    (h : p.readPtr dt a = .ok v) : v < 256 ^ ptrBytes dt := by
  unfold Process.readPtr at h
  cases hr : p.readBytes a (ptrBytes dt) with
  | error e => rw [hr] at h; cases h
  | ok bs =>
    rw [hr] at h
    cases h
    rw [← readBytes_length p (ptrBytes dt) a bs hr]
    exact leDecode_lt bs

theorem derefLoop_trace_width (p : Process) (dt : DerefType) :
    ∀ (offs : List Nat) (a : Nat), ∀ rd ∈ (derefLoop p dt a offs).2,
      rd.2 = ptrBytes dt := by
  intro offs
  induction offs with
  | nil => intro a rd h; simp [derefLoop] at h
  | cons off offs ih =>
    intro a rd h
    simp only [derefLoop] at h
    cases hr : p.readPtr dt (addrAdd a off) with
    | error e =>
      rw [hr] at h
      simp only [List.mem_singleton] at h
      rw [h]
    | ok v =>
      rw [hr] at h
      simp only [List.mem_cons] at h
      rcases h with h | h
      · rw [h]
      · exact ih v rd h

theorem deref_offsets_from_null {CAP : Nat} (ptr : DeepPointer CAP) (p : Process)
    (base : Nat) (hb : base = 0) :
    ptr.deref_offsets_from p base = (.error .nullBase, []) := by
  unfold DeepPointer.deref_offsets_from
  rw [if_pos hb]

theorem deref_offsets_from_empty {CAP : Nat} (ptr : DeepPointer CAP) (p : Process)
    (base : Nat) (hb : ¬ base = 0) (hp : ptr.path = []) :
    ptr.deref_offsets_from p base = (.error .emptyPath, []) := by
  unfold DeepPointer.deref_offsets_from
  rw [if_neg hb, hp]
  rfl

theorem deref_offsets_from_eq_some {CAP : Nat} (ptr : DeepPointer CAP) (p : Process)
    (base last : Nat) (inter : List Nat) (hb : ¬ base = 0)
    (hs : splitLast ptr.path = some (last, inter)) :
    ptr.deref_offsets_from p base =
      (match derefLoop p ptr.deref_type base inter with
        | (.ok address, tr) => (.ok (addrAdd address last), tr)
        | (.error e, tr) => (.error (.readFailed e), tr)) := by
  unfold DeepPointer.deref_offsets_from
  rw [if_neg hb, hs]

theorem deref_offsets_from_loop_ok {CAP : Nat} (ptr : DeepPointer CAP) (p : Process)
    (base last address : Nat) (inter : List Nat) (tr : List (Nat × Nat))
    (hb : ¬ base = 0) (hs : splitLast ptr.path = some (last, inter))
    (hl : derefLoop p ptr.deref_type base inter = (.ok address, tr)) :
    ptr.deref_offsets_from p base = (.ok (addrAdd address last), tr) := by
  rw [deref_offsets_from_eq_some ptr p base last inter hb hs, hl]

theorem deref_offsets_from_loop_err {CAP : Nat} (ptr : DeepPointer CAP) (p : Process)
    (base last : Nat) (e : ReadError) (inter : List Nat) (tr : List (Nat × Nat))
    (hb : ¬ base = 0) (hs : splitLast ptr.path = some (last, inter))
    (hl : derefLoop p ptr.deref_type base inter = (.error e, tr)) :
    ptr.deref_offsets_from p base = (.error (.readFailed e), tr) := by
  rw [deref_offsets_from_eq_some ptr p base last inter hb hs, hl]

theorem deref_offsets_from_trace_width {CAP : Nat} (ptr : DeepPointer CAP)
    (p : Process) (base : Nat) :
    ∀ rd ∈ (ptr.deref_offsets_from p base).2, rd.2 = ptrBytes ptr.deref_type := by
  intro rd h
  by_cases hb : base = 0
  · rw [deref_offsets_from_null ptr p base hb] at h
    simp at h
  · cases hs : splitLast ptr.path with
    | none =>
      have hp : ptr.path = [] := by
        cases hpp : ptr.path with
        | nil => rfl
        | cons x xs =>
          exfalso
          have : ∃ l init, splitLast (x :: xs) = some (l, init) := by
            clear hs hpp h
            induction xs generalizing x with
            | nil => exact ⟨x, [], rfl⟩
            | cons y ys ih =>
              obtain ⟨l, init, hspl⟩ := ih y
              exact ⟨l, x :: init, by rw [splitLast, hspl]⟩
          obtain ⟨l, init, hspl⟩ := this
          rw [hpp, hspl] at hs
          cases hs
      rw [deref_offsets_from_empty ptr p base hb hp] at h
      simp at h
    | some li =>
      obtain ⟨last, inter⟩ := li
      cases hl : derefLoop p ptr.deref_type base inter with
      | mk r tr =>
        have htr : rd ∈ tr := by
          cases r with
          | ok address =>
            rw [deref_offsets_from_loop_ok ptr p base last address inter tr hb hs hl] at h
            exact h
          | error e =>
            rw [deref_offsets_from_loop_err ptr p base last e inter tr hb hs hl] at h
            exact h
        refine derefLoop_trace_width p ptr.deref_type inter base rd ?_
        rw [hl]
        exact htr

/-! ### Claim theorems -/

/-- C1: for a non-empty offset sequence `inter ++ [last]` of length `N` and
a non-null base, when the chain of intermediate reads yields the values
`vs`, `deref_offsets_from` issues exactly the `N - 1` reads at
`base + offsets[0] → v0`, `v0 + offsets[1] → v1`, ..., and returns
`v_{N-2} + offsets[N-1]`; with `N = 1` the chain is empty, zero reads are
issued and the result is `base + offsets[0]`. -/
theorem c1_resolve_address_chain {CAP : Nat} (ptr : DeepPointer CAP) (p : Process)
    (base last : Nat) (inter vs : List Nat)
    (hbase : ¬ base = 0) (hpath : ptr.path = inter ++ [last])
    (hchain : chainOk p ptr.deref_type base inter vs) :
    ptr.deref_offsets_from p base =
      (.ok (addrAdd (vs.getLastD base) last), chainTrace ptr.deref_type base inter vs) ∧
    (chainTrace ptr.deref_type base inter vs).length + 1 = ptr.path.length := by
  constructor
  · exact deref_offsets_from_loop_ok ptr p base last (vs.getLastD base) inter
      (chainTrace ptr.deref_type base inter vs) hbase
      (by rw [hpath]; exact splitLast_append_last inter last)
      (derefLoop_chain p ptr.deref_type inter vs base hchain)
  · rw [chainTrace_length p ptr.deref_type inter vs base hchain, hpath]
    simp

/-- C1 witness: the spec's scenario — base `0x1000`, `Wide`,
offsets `[0x10, 0x20]`, the read at `0x1010` yields `0x2000`; the result
is `0x2020` with exactly one read issued. -/
theorem c1_resolve_address_chain_witness :
    ptr1.deref_offsets_from proc1 0x1000 = (.ok 0x2020, [(0x1010, 8)]) ∧
    (chainTrace ptr1.deref_type 0x1000 [0x10] [0x2000]).length + 1 = ptr1.path.length := by
  have h := c1_resolve_address_chain ptr1 proc1 0x1000 0x20 [0x10] [0x2000]
    (by decide) rfl ⟨rfl, trivial⟩
  exact ⟨h.1.trans (by rfl), h.2⟩

/-- C2: `new` with `offsets.len() > CAP` or `CAP = 0` fails the
`assert!(CAP != 0 && CAP >= path.len())` (modelled as `none`, never a
truncated path), while `offsets.len() = CAP` with `CAP ≠ 0` succeeds and
keeps the whole offset sequence. -/
theorem c2_new_capacity (CAP : Nat) (base : Nat) (dt : DerefType) (offs : List Nat) :
    ((CAP = 0 ∨ offs.length > CAP) → DeepPointer.new CAP base dt offs = none) ∧
    (CAP ≠ 0 → offs.length = CAP →
      DeepPointer.new CAP base dt offs = some ⟨base, offs, dt⟩) := by
  constructor
  · intro h
    unfold DeepPointer.new
    rw [if_neg]
    rintro ⟨h1, h2⟩
    rcases h with h | h
    · exact h1 h
    · omega
  · intro h1 h2
    unfold DeepPointer.new
    rw [if_pos ⟨h1, by omega⟩]

/-- C2 witness: with capacity `2`, three offsets are rejected while two
offsets are kept in full. -/
theorem c2_new_capacity_witness :
    DeepPointer.new 2 7 DerefType.Bit64 [1, 2, 3] = none ∧
    DeepPointer.new 2 7 DerefType.Bit64 [1, 2] = some ⟨7, [1, 2], DerefType.Bit64⟩ :=
  ⟨(c2_new_capacity 2 7 DerefType.Bit64 [1, 2, 3]).1 (Or.inr (by decide)),
   (c2_new_capacity 2 7 DerefType.Bit64 [1, 2]).2 (by decide) rfl⟩

/-- C3: resolving with the null base address fails with `NullBase` and the
read trace is empty — no memory read is issued, whatever the offsets. -/
theorem c3_null_base {CAP : Nat} (ptr : DeepPointer CAP) (p : Process) :
    ptr.deref_offsets_from p 0 = (.error .nullBase, []) := rfl

/-- C4 counterexample: on an empty-offset path resolved from the null base
address the result is not `EmptyPath` (the null-base guard fires first),
refuting the claim's "for any base address". -/
theorem c4_counterexample :
    ¬ ((⟨5, [], DerefType.Bit64⟩ : DeepPointer 1).deref_offsets_from procEmpty 0
        = (.error .emptyPath, [])) := by
  intro h
  have h1 : (Except.error Error.nullBase : Except Error Nat) = .error .emptyPath :=
    congrArg Prod.fst h
  exact Error.noConfusion (Except.error.inj h1)

/-- C4 (amended): on an empty-offset path, for every non-null base
address, resolving fails with `EmptyPath` and issues no memory read. -/
theorem c4_empty_path {CAP : Nat} (ptr : DeepPointer CAP) (p : Process) (base : Nat)
    (hpath : ptr.path = []) (hbase : ¬ base = 0) :
    ptr.deref_offsets_from p base = (.error .emptyPath, []) :=
  deref_offsets_from_empty ptr p base hbase hpath

/-- C4 witness: an empty path resolved from the non-null base `3` fails
with `EmptyPath` and an empty read trace. -/
theorem c4_empty_path_witness :
    (⟨7, [], DerefType.Bit64⟩ : DeepPointer 1).deref_offsets_from procEmpty 3
      = (.error .emptyPath, []) :=
  c4_empty_path (⟨7, [], DerefType.Bit64⟩ : DeepPointer 1) procEmpty 3 rfl (by decide)

/-- C5: when the reads along the prefix `pre` succeed with values `vs` and
the next intermediate read fails with `cause`, the whole traversal aborts
with `ReadFailed cause`; the trace contains the successful prefix reads
plus the failing read and nothing after it. -/
theorem c5_read_failure_aborts {CAP : Nat} (ptr : DeepPointer CAP) (p : Process)
    (base offf last : Nat) (pre rest vs : List Nat) (cause : ReadError)
    (hbase : ¬ base = 0)
    (hpath : ptr.path = pre ++ offf :: (rest ++ [last]))
    (hchain : chainOk p ptr.deref_type base pre vs)
    (hfail : p.readPtr ptr.deref_type (addrAdd (vs.getLastD base) offf) = .error cause) :
    ptr.deref_offsets_from p base =
      (.error (.readFailed cause),
        chainTrace ptr.deref_type base pre vs ++
          [(addrAdd (vs.getLastD base) offf, ptrBytes ptr.deref_type)]) ∧
    (chainTrace ptr.deref_type base pre vs ++
        [(addrAdd (vs.getLastD base) offf, ptrBytes ptr.deref_type)]).length
      = pre.length + 1 := by
  constructor
  · refine deref_offsets_from_loop_err ptr p base last cause (pre ++ offf :: rest) _
      hbase ?_ ?_
    · rw [hpath]
      have : pre ++ offf :: (rest ++ [last]) = (pre ++ offf :: rest) ++ [last] := by
        simp
      rw [this]
      exact splitLast_append_last (pre ++ offf :: rest) last
    · exact derefLoop_fail p ptr.deref_type pre vs base offf rest cause hchain hfail
  · rw [List.length_append, chainTrace_length p ptr.deref_type pre vs base hchain]
    rfl

/-- C5 witness: the spec's failure scenario — base `0x1000`, `Wide`,
offsets `[0x10, 0x20]`, the read at `0x1010` fails; the traversal returns
`ReadFailed` wrapping the cause, with exactly the one failing read in the
trace. -/
theorem c5_read_failure_aborts_witness :
    ptr1.deref_offsets_from procEmpty 0x1000
      = (.error (.readFailed ⟨0x1010⟩), [(0x1010, 8)]) ∧
    ([(0x1010, 8)] : List (Nat × Nat)).length = 0 + 1 := by
  have h := c5_read_failure_aborts ptr1 procEmpty 0x1000 0x10 0x20 [] [] []
    ⟨0x1010⟩ (by decide) rfl trivial rfl
  exact ⟨h.1.trans (by rfl), by decide⟩

/-- C6: `deref` is `deref_from` at the path's own base; `deref_from` first
resolves the address and then issues exactly one more read of `pod.size`
bytes at that address decoded as `T` (resolution failures propagate with
no extra read); when the bytes read are not a legal bit pattern for `T`
the result is `InvalidBitPattern`, never a value. -/
theorem c6_deref_value {CAP : Nat} {T : Type} (pod : PodType T) (ptr : DeepPointer CAP)
    (p : Process) (base : Nat) :
    DeepPointer.deref pod ptr p = DeepPointer.deref_from pod ptr p ptr.base_address ∧
    (∀ a tr, ptr.deref_offsets_from p base = (.ok a, tr) →
      DeepPointer.deref_from pod ptr p base = (p.readValue pod a, tr ++ [(a, pod.size)])) ∧
    (∀ e tr, ptr.deref_offsets_from p base = (.error e, tr) →
      DeepPointer.deref_from pod ptr p base = (.error e, tr)) ∧
    (∀ a tr bs, ptr.deref_offsets_from p base = (.ok a, tr) →
      p.readBytes a pod.size = .ok bs → pod.decode bs = none →
      (DeepPointer.deref_from pod ptr p base).1 = .error .invalidBitPattern) := by
  refine ⟨rfl, ?_, ?_, ?_⟩
  · intro a tr h
    unfold DeepPointer.deref_from
    rw [h]
  · intro e tr h
    unfold DeepPointer.deref_from
    rw [h]
  · intro a tr bs h hbytes hdec
    unfold DeepPointer.deref_from
    rw [h]
    show p.readValue pod a = Except.error Error.invalidBitPattern
    unfold Process.readValue
    rw [hbytes]
    show (match pod.decode bs with
      | none => (Except.error Error.invalidBitPattern : Except Error T)
      | some v => Except.ok v) = Except.error Error.invalidBitPattern
    rw [hdec]

/-- C6 witness: resolving the spec's scenario path yields `0x2020`, where
the single byte read back is `2` — not a legal `Bool` bit pattern — so
`deref_from` fails with `InvalidBitPattern`. -/
theorem c6_deref_value_witness :
    DeepPointer.deref podBool ptr1 proc6 = DeepPointer.deref_from podBool ptr1 proc6 0x1000 ∧
    (DeepPointer.deref_from podBool ptr1 proc6 0x1000).1 = .error .invalidBitPattern := by
  have h := c6_deref_value podBool ptr1 proc6 0x1000
  exact ⟨h.1, h.2.2.2 0x2020 [(0x1010, 8)] [(2 : Fin 256)] (by rfl) (by rfl) (by rfl)⟩

/-- C7: `with_base_address b` yields a path whose base is `b` and whose
offsets and width are unchanged (the original value is untouched), and
resolving the new path from its own base over any memory equals resolving
the original path with `b` substituted for its base. -/
theorem c7_with_base_address {CAP : Nat} (ptr : DeepPointer CAP) (b : Nat) :
    (ptr.with_base_address b).base_address = b ∧
    (ptr.with_base_address b).path = ptr.path ∧
    (ptr.with_base_address b).deref_type = ptr.deref_type ∧
    ∀ p : Process, (ptr.with_base_address b).deref_offsets p = ptr.deref_offsets_from p b :=
  ⟨rfl, rfl, rfl, fun _ => rfl⟩

/-- C8: `deref_offsets` is exactly `deref_offsets_from` at the path's own
base address, for every path and reader. -/
theorem c8_deref_offsets_default_base {CAP : Nat} (ptr : DeepPointer CAP) (p : Process) :
    ptr.deref_offsets p = ptr.deref_offsets_from p ptr.base_address := rfl

/-- C9: every read issued by a traversal is sized by the path's width —
`ptrBytes` is `4` for `Bit32` and `8` for `Bit64`; a successful `Bit32`
read widens into an address below `2 ^ 32` and a `Bit64` read stays below
`2 ^ 64`; and the default pointer width is `Bit64`. -/
theorem c9_pointer_width {CAP : Nat} (ptr : DeepPointer CAP) (p : Process) (base : Nat) :
    (∀ rd ∈ (ptr.deref_offsets_from p base).2, rd.2 = ptrBytes ptr.deref_type) ∧
    ptrBytes DerefType.Bit32 = 4 ∧ ptrBytes DerefType.Bit64 = 8 ∧
    (∀ a v, p.readPtr DerefType.Bit32 a = .ok v → v < U32) ∧
    (∀ a v, p.readPtr DerefType.Bit64 a = .ok v → v < U64) ∧
    (default : DerefType) = DerefType.Bit64 := by
  refine ⟨deref_offsets_from_trace_width ptr p base, rfl, rfl, ?_, ?_, rfl⟩
  · intro a v h
    have := readPtr_lt p DerefType.Bit32 a v h
    simpa [ptrBytes, U32] using this
  · intro a v h
    have := readPtr_lt p DerefType.Bit64 a v h
    simpa [ptrBytes, U64] using this

/-- C9 witness: in the spec's scenario the single issued read is 8 bytes
wide (the path's `Bit64` width), and a successful 4-byte `Bit32` read of
the same memory yields a value below `2 ^ 32`. -/
theorem c9_pointer_width_witness :
    ((0x1010, 8) : Nat × Nat).2 = ptrBytes ptr1.deref_type ∧ (0x2000 : Nat) < U32 := by
  have h := c9_pointer_width ptr1 proc1 0x1000
  refine ⟨h.1 (0x1010, 8) ?_, h.2.2.2.1 0x1010 0x2000 (by rfl)⟩
  rw [show (ptr1.deref_offsets_from proc1 0x1000).2 = [(0x1010, 8)] from rfl]
  exact List.mem_singleton.mpr rfl

/-- C10: the default `DeepPointer` has the null base, no offsets and
`Bit64` width; it exists for every capacity including `CAP = 0` (where
`new` would fail its assertion even on an empty path); and every resolve
on it fails — `NullBase` from its own (null) base, and `NullBase` or
`EmptyPath` from any overridden base — issuing no reads and leaving the
(immutable) path unchanged. -/
theorem c10_default_path (CAP : Nat) :
    (DeepPointer.defaultPtr CAP).base_address = 0 ∧
    (DeepPointer.defaultPtr CAP).path = [] ∧
    (DeepPointer.defaultPtr CAP).deref_type = DerefType.Bit64 ∧
    (CAP = 0 → DeepPointer.new CAP 0 DerefType.Bit64 [] = none) ∧
    (∀ (p : Process) (b : Nat),
      (DeepPointer.defaultPtr CAP).deref_offsets p = (.error .nullBase, []) ∧
      (DeepPointer.defaultPtr CAP).deref_offsets_from p b =
        (.error (if b = 0 then Error.nullBase else Error.emptyPath), [])) := by
  refine ⟨rfl, rfl, rfl, ?_, ?_⟩
  · intro h
    subst h
    rfl
  · intro p b
    refine ⟨rfl, ?_⟩
    by_cases hb : b = 0
    · subst hb
      rfl
    · rw [if_neg hb]
      exact deref_offsets_from_empty (DeepPointer.defaultPtr CAP) p b hb rfl

/-- C10 witness: at `CAP = 0` the default path is constructible while
`new` rejects even the empty offset list; resolving the default path
fails with `NullBase` from its own base and `EmptyPath` from the non-null
base `5`. -/
theorem c10_default_path_witness :
    DeepPointer.new 0 0 DerefType.Bit64 [] = none ∧
    (DeepPointer.defaultPtr 0).deref_offsets procEmpty = (.error .nullBase, []) ∧
    (DeepPointer.defaultPtr 0).deref_offsets_from procEmpty 5 = (.error .emptyPath, []) := by
  have h := c10_default_path 0
  exact ⟨h.2.2.2.1 rfl, (h.2.2.2.2 procEmpty 5).1,
    ((h.2.2.2.2 procEmpty 5).2).trans (by rfl)⟩

end Asr
